import Mathlib

/-!
Verification of `scripts/free_scraper.py` (class `EnhancedWebScraper`).

Texts, URLs and entity names are modelled as `List Char`.  The Python `re`
patterns used by the extractors are embedded as bespoke scanners that
reproduce `re.findall` semantics (left-to-right scan, leftmost match,
greedy quantifiers with backtracking, non-overlapping matches) for the
concrete patterns appearing in the source.  The embedding covers the ASCII
fragment of the Python character classes (`[A-Z]`, `[a-z]`, `\d`, `\s`,
`\w`, `\b`), which is the fragment the patterns themselves are written in.
-/

namespace FreeScraper

/-! ### Character classes (ASCII fragment of Python `re` classes) -/

def isUpperAZ (c : Char) : Bool := decide ('A' ≤ c) && decide (c ≤ 'Z')

def isLowerAZ (c : Char) : Bool := decide ('a' ≤ c) && decide (c ≤ 'z')

def isDigitC (c : Char) : Bool := decide ('0' ≤ c) && decide (c ≤ '9')

/-- Python `\s` (ASCII): space, tab, newline, carriage return, vertical tab, form feed. -/
def isSpaceC (c : Char) : Bool :=
  c = ' ' || c = '\t' || c = '\n' || c = '\r' || c = Char.ofNat 11 || c = Char.ofNat 12

def isAlphaC (c : Char) : Bool := isUpperAZ c || isLowerAZ c

/-- Python `\w` (ASCII): letters, digits, underscore. -/
def isWordC (c : Char) : Bool := isAlphaC c || isDigitC c || c = '_'

def toLowerC (c : Char) : Char :=
  if isUpperAZ c then Char.ofNat (c.toNat + 32) else c

def toUpperC (c : Char) : Char :=
  if isLowerAZ c then Char.ofNat (c.toNat - 32) else c

def lowerL (l : List Char) : List Char := l.map toLowerC

/-- `\b` holds before the current position: previous char absent or non-word.
    (All uses below are at positions whose next char is a word char.) -/
def boundaryBefore : Option Char → Bool
  | none => true
  | some c => !isWordC c

/-- `\b` holds after a match ending in a word char: next char absent or non-word. -/
def boundaryAfter : List Char → Bool
  | [] => true
  | c :: _ => !isWordC c

/-! ### Basic string operations (Python `str` methods) -/

/-- Python `needle in hay` (substring containment). -/
def containsSeq (needle : List Char) : List Char → Bool
  | [] => needle.isEmpty
  | c :: rest => needle.isPrefixOf (c :: rest) || containsSeq needle rest

/-- Python `str.strip()`: drop leading and trailing whitespace. -/
def pstrip (l : List Char) : List Char :=
  ((l.dropWhile isSpaceC).reverse.dropWhile isSpaceC).reverse

/-- Python `str.isupper()`: at least one cased char and no lowercase char. -/
def isupperStr (l : List Char) : Bool :=
  l.any isAlphaC && l.all (fun c => !isLowerAZ c)

/-- Python `re.match(r'^\d+$', t)`: `t` is a nonempty run of digits. -/
def allDigitsStr (l : List Char) : Bool :=
  !l.isEmpty && l.all isDigitC

/-- Python `str.replace(needle, '')`: remove all (non-overlapping, left-to-right)
    occurrences of `needle`.  Fuel-driven; callers pass the list length. -/
def removeAll (needle : List Char) : Nat → List Char → List Char
  | 0, l => l
  | _ + 1, [] => []
  | fuel + 1, c :: rest =>
    if needle.isPrefixOf (c :: rest) && !needle.isEmpty then
      removeAll needle fuel ((c :: rest).drop needle.length)
    else
      c :: removeAll needle fuel rest

/-- Python `str.title()`: uppercase each letter that follows a non-letter,
    lowercase the other letters.  The flag records whether the previous
    char was a letter. -/
def titleGo : List Char → Bool → List Char
  | [], _ => []
  | c :: rest, prevAlpha =>
    (if isAlphaC c then (if prevAlpha then toLowerC c else toUpperC c) else c)
      :: titleGo rest (isAlphaC c)

def titleCase (l : List Char) : List Char := titleGo l false

/-- Python `re.split(r'[.!?]+', text)`: split on maximal runs of
    sentence punctuation.  Fuel-driven; callers pass the list length. -/
def isPunctC (c : Char) : Bool := c = '.' || c = '!' || c = '?'

def splitPunctGo : Nat → List Char → List Char → List (List Char)
  | 0, acc, _ => [acc.reverse]
  | _ + 1, acc, [] => [acc.reverse]
  | fuel + 1, acc, c :: rest =>
    if isPunctC c then
      acc.reverse :: splitPunctGo fuel [] (rest.dropWhile isPunctC)
    else
      splitPunctGo fuel (c :: acc) rest

def splitPunct (l : List Char) : List (List Char) :=
  splitPunctGo (l.length + 1) [] l

/-! ### Capitalized-word parsing, shared by several patterns

`[A-Z][a-z]+` followed by `(?:\s+[A-Z][a-z]+)*`.  `capWord` parses one
capitalized word with a *maximal* lowercase run (the greedy `[a-z]+`);
`wordSeq` parses the greedy star, returning the `(separator, word)` pairs
in order.  Backtracking inside a maximal run can never help the patterns
below (shrinking `[a-z]+` lands between two word chars, where `\b` fails,
and makes a following `\s+` fail), so only whole words are ever dropped. -/

def capWord : List Char → Option (List Char × List Char)
  | [] => none
  | c :: rest =>
    if isUpperAZ c then
      let run := rest.takeWhile isLowerAZ
      if run.isEmpty then none else some (c :: run, rest.drop run.length)
    else none

def wordSeq : Nat → List Char → List (List Char × List Char) × List Char
  | 0, l => ([], l)
  | fuel + 1, l =>
    let sp := l.takeWhile isSpaceC
    if sp.isEmpty then ([], l)
    else
      match capWord (l.drop sp.length) with
      | none => ([], l)
      | some (w, r) =>
        let (items, rest) := wordSeq fuel r
        ((sp, w) :: items, rest)

def sumLens (items : List (List Char × List Char)) : Nat :=
  items.foldr (fun it a => it.1.length + it.2.length + a) 0

/-! ### Generic `re.findall` scanner

Walks the text left to right, tracking the previous character (for `\b`),
trying `matchAt` at every position; on a match of length `n ≥ 1` it emits
the payload and resumes after the match, as `re.findall` does. -/

def scanWith (matchAt : Option Char → List Char → Option (Nat × α)) :
    Nat → Option Char → List Char → List α
  | 0, _, _ => []
  | _ + 1, _, [] => []
  | fuel + 1, prev, c :: rest =>
    match matchAt prev (c :: rest) with
    | some (n, out) =>
      out :: scanWith matchAt fuel (((c :: rest).take n).getLast?) ((c :: rest).drop n)
    | none => scanWith matchAt fuel (some c) rest

def runScan (matchAt : Option Char → List Char → Option (Nat × α)) (l : List Char) : List α :=
  scanWith matchAt (l.length + 1) none l

/-! ### Pattern: proper nouns — `\b[A-Z][a-z]+(?:\s+[A-Z][a-z]+)*\b`

After the greedy word sequence, the trailing `\b` fails only when the char
right after the last word is a word char; backtracking then drops that
whole word (positions inside a word never satisfy `\b`), landing before
its whitespace separator where `\b` holds.  If only one word was parsed,
the match attempt fails. -/

def matchProperAt (prev : Option Char) (l : List Char) : Option (Nat × List Char) :=
  if boundaryBefore prev then
    match capWord l with
    | none => none
    | some (w0, r0) =>
      let (items, r1) := wordSeq r0.length r0
      if boundaryAfter r1 then
        let n := w0.length + sumLens items
        some (n, l.take n)
      else if items.isEmpty then none
      else
        let n := w0.length + sumLens items.dropLast
        some (n, l.take n)
  else none

def findProperNouns (l : List Char) : List (List Char) := runScan matchProperAt l

/-! ### Pattern: fixed vocabulary with word boundaries, case-insensitive

Used for the technical-term pattern and the product-feature pattern.
No vocabulary word is a (case-insensitive) prefix of another, so the
alternation order never matters; the first (only) fitting word wins. -/

def matchVocabCI (vocab : List (List Char)) (prev : Option Char) (l : List Char) :
    Option (Nat × List Char) :=
  if boundaryBefore prev then
    match vocab.find? (fun v =>
        lowerL (l.take v.length) == lowerL v && boundaryAfter (l.drop v.length)) with
    | some v => some (v.length, l.take v.length)
    | none => none
  else none

def tech_vocab : List (List Char) :=
  ["API", "SDK", "framework", "library", "database", "server", "client",
   "protocol", "algorithm", "software", "platform", "system", "application",
   "service", "tool", "technology"].map String.toList

def findTechTerms (l : List Char) : List (List Char) := runScan (matchVocabCI tech_vocab) l

/-! ### Pattern: organizations —
`\b[A-Z][a-z]+(?:\s+[A-Z][a-z]+)*\s+(?:Inc|LLC|Corp|Company|Ltd|Organization|Foundation|Institute)\b`

The greedy star eats every capitalized word, so the suffix is first sought
in the remaining text after the last word (reachable only for `LLC`, the
one suffix not of shape `[A-Z][a-z]+`), then by giving back star
iterations from the right.  A given-back word matches the suffix exactly
iff it equals a suffix literal and is followed by a non-word char: a
proper-prefix match leaves a lowercase (word) char under the trailing
`\b`, and none of the literals can extend past a maximal word.  For every
word but the last the following char is whitespace, so `\b` holds there
automatically.  No suffix literal is a prefix of another, so the
alternation order never matters. -/

def org_suffixes : List (List Char) :=
  ["Inc", "LLC", "Corp", "Company", "Ltd", "Organization", "Foundation",
   "Institute"].map String.toList

def orgBackRev (w0len : Nat) : List (List Char × List Char) → Bool → Option Nat
  | [], _ => none
  | (sp, w) :: rest, lastB =>
    if lastB && org_suffixes.contains w then
      some (w0len + sumLens rest + sp.length + w.length)
    else orgBackRev w0len rest true

def matchOrgAt (prev : Option Char) (l : List Char) : Option (Nat × List Char) :=
  if boundaryBefore prev then
    match capWord l with
    | none => none
    | some (w0, r0) =>
      let (items, r1) := wordSeq r0.length r0
      let base := w0.length + sumLens items
      let sp := r1.takeWhile isSpaceC
      let r2 := r1.drop sp.length
      match (if sp.isEmpty then none
             else org_suffixes.find? (fun v =>
               v.isPrefixOf r2 && boundaryAfter (r2.drop v.length))) with
      | some v =>
        let n := base + sp.length + v.length
        some (n, l.take n)
      | none =>
        match orgBackRev w0.length items.reverse (boundaryAfter r1) with
        | some n => some (n, l.take n)
        | none => none
  else none

def findOrgTerms (l : List Char) : List (List Char) := runScan matchOrgAt l

/-! ### Pattern: prices — `\$[\d,]+(?:\.\d{2})?`

A dollar sign, a maximal nonempty run of digits and commas, then
optionally a dot followed by exactly two digits.  No word boundaries. -/

def isDigitComma (c : Char) : Bool := isDigitC c || c = ','

def matchPriceAt (_prev : Option Char) (l : List Char) : Option (Nat × List Char) :=
  match l with
  | [] => none
  | c :: rest =>
    if c = '$' then
      let run := rest.takeWhile isDigitComma
      if run.isEmpty then none
      else
        let r2 := rest.drop run.length
        let extra :=
          match r2 with
          | d :: e1 :: e2 :: _ => if d = '.' && isDigitC e1 && isDigitC e2 then 3 else 0
          | _ => 0
        let n := 1 + run.length + extra
        some (n, l.take n)
    else none

def findPrices (l : List Char) : List (List Char) := runScan matchPriceAt l

/-! ### Pattern: addresses —
`\d+\s+[A-Z][a-z]+(?:\s+[A-Z][a-z]+)*(?:\s+(?:St|Street|Ave|Avenue|Rd|Road|Dr|Drive|Blvd|Boulevard|Ln|Lane|Way|Ct|Court))`

No word boundaries at all, so the street suffix only needs to be a literal
prefix at its position and the match may end mid-word (e.g. `123 Main
Street` matches as `123 Main St`).  Every suffix literal has shape
uppercase-then-lowercase, so after the greedy star the suffix can never
match in the remaining text (it would have been consumed as a star word);
it is found by giving back star words from the right.  Shorter literals
precede their extensions in the source alternation (`St` before `Street`),
so taking the first literal that is a prefix of the word reproduces the
alternation order. -/

def street_suffixes : List (List Char) :=
  ["St", "Street", "Ave", "Avenue", "Rd", "Road", "Dr", "Drive", "Blvd",
   "Boulevard", "Ln", "Lane", "Way", "Ct", "Court"].map String.toList

def addrBackRev (baseLen : Nat) : List (List Char × List Char) → Option Nat
  | [] => none
  | (sp, w) :: rest =>
    match street_suffixes.find? (fun v => v.isPrefixOf w) with
    | some v => some (baseLen + sumLens rest + sp.length + v.length)
    | none => addrBackRev baseLen rest

def matchAddressAt (_prev : Option Char) (l : List Char) : Option (Nat × List Char) :=
  let digits := l.takeWhile isDigitC
  if digits.isEmpty then none
  else
    let r0 := l.drop digits.length
    let sp0 := r0.takeWhile isSpaceC
    if sp0.isEmpty then none
    else
      match capWord (r0.drop sp0.length) with
      | none => none
      | some (w0, r1) =>
        let (items, _) := wordSeq r1.length r1
        match addrBackRev (digits.length + sp0.length + w0.length) items.reverse with
        | some n => some (n, l.take n)
        | none => none

def findAddresses (l : List Char) : List (List Char) := runScan matchAddressAt l

/-! ### Pattern: property features —
`\b(\d+)\s+(bed|bedroom|bath|bathroom|garage|car|sqft|sq ft|acre)s?\b`
(case-insensitive); `re.findall` returns the `(count, feature)` groups.

Here `bed` precedes `bedroom` (and `bath` precedes `bathroom`) in the
alternation, so the engine first tries the short literal; it survives only
if an optional `s` plus a word boundary fits, otherwise the next
alternative is tried.  The greedy `s?` prefers consuming an `s`. -/

def feature_vocab : List (List Char) :=
  ["bed", "bedroom", "bath", "bathroom", "garage", "car", "sqft", "sq ft",
   "acre"].map String.toList

def featAltGo : List (List Char) → List Char → Option (Nat × Nat)
  | [], _ => none
  | v :: vs, r =>
    if lowerL (r.take v.length) == lowerL v then
      match r.drop v.length with
      | [] => some (v.length, v.length)
      | c :: after =>
        if (c = 's' || c = 'S') && boundaryAfter after then
          some (v.length, v.length + 1)
        else if !isWordC c then some (v.length, v.length)
        else featAltGo vs r
    else featAltGo vs r

def matchFeatureAt (prev : Option Char) (l : List Char) :
    Option (Nat × (List Char × List Char)) :=
  if boundaryBefore prev then
    let digits := l.takeWhile isDigitC
    if digits.isEmpty then none
    else
      let r0 := l.drop digits.length
      let sp := r0.takeWhile isSpaceC
      if sp.isEmpty then none
      else
        let r1 := r0.drop sp.length
        match featAltGo feature_vocab r1 with
        | some (flen, consumed) =>
          some (digits.length + sp.length + consumed, (digits, r1.take flen))
        | none => none
  else none

def findFeatures (l : List Char) : List (List Char × List Char) :=
  runScan matchFeatureAt l

/-! ### Pattern: job titles —
`\b(?:Senior|Junior|...|CFO)\s+[A-Z][a-z]+(?:\s+[A-Z][a-z]+)*`

Case-sensitive alternation (no literal is a prefix of another), then
whitespace and a greedy capitalized word sequence with no trailing
boundary.  If the sequel fails the engine tries the next alternative. -/

def title_alts : List (List Char) :=
  ["Senior", "Junior", "Lead", "Principal", "Director", "Manager", "Engineer",
   "Developer", "Analyst", "Specialist", "Coordinator", "Executive", "VP",
   "Vice President", "CEO", "CTO", "CFO"].map String.toList

def jobAltGo : List (List Char) → List Char → Option Nat
  | [], _ => none
  | v :: vs, l =>
    if v.isPrefixOf l then
      let r0 := l.drop v.length
      let sp := r0.takeWhile isSpaceC
      if sp.isEmpty then jobAltGo vs l
      else
        match capWord (r0.drop sp.length) with
        | none => jobAltGo vs l
        | some (w0, r1) =>
          let (items, _) := wordSeq r1.length r1
          some (v.length + sp.length + w0.length + sumLens items)
    else jobAltGo vs l

def matchJobAt (prev : Option Char) (l : List Char) : Option (Nat × List Char) :=
  if boundaryBefore prev then
    match jobAltGo title_alts l with
    | some n => some (n, l.take n)
    | none => none
  else none

def findJobTitles (l : List Char) : List (List Char) := runScan matchJobAt l

/-! ### Pattern: companies —
`(?:at|@|works at|employed by)\s+([A-Z][a-z]+(?:\s+[A-Z][a-z]+)*(?:\s+Inc|LLC|Corp|Company|Ltd)?)`

`re.findall` returns group 1.  No word boundaries anywhere: the prefix
`at` also matches inside words.  Inside the optional group the `\s+`
binds only to `Inc` (regex alternation precedence), so `LLC`, `Corp`,
`Company` and `Ltd` must appear directly after the last word with no
separating space.  After a greedy capitalized word sequence a space
followed by `Inc` would itself have been parsed as a star word, so that
alternative never extends a maximal sequence; it is kept for fidelity. -/

def company_pre : List (List Char) := ["at", "@", "works at", "employed by"].map String.toList

def companyOpt (r : List Char) : Nat :=
  let sp := r.takeWhile isSpaceC
  if !sp.isEmpty && List.isPrefixOf ("Inc".toList) (r.drop sp.length) then sp.length + 3
  else if List.isPrefixOf ("LLC".toList) r then 3
  else if List.isPrefixOf ("Corp".toList) r then 4
  else if List.isPrefixOf ("Company".toList) r then 7
  else if List.isPrefixOf ("Ltd".toList) r then 3
  else 0

def companyGo : List (List Char) → List Char → Option (Nat × List Char)
  | [], _ => none
  | v :: vs, l =>
    if v.isPrefixOf l then
      let r0 := l.drop v.length
      let sp := r0.takeWhile isSpaceC
      if sp.isEmpty then companyGo vs l
      else
        match capWord (r0.drop sp.length) with
        | none => companyGo vs l
        | some (w0, r1) =>
          let (items, r2) := wordSeq r1.length r1
          let glen := w0.length + sumLens items + companyOpt r2
          let gstart := v.length + sp.length
          some (gstart + glen, (l.drop gstart).take glen)
    else companyGo vs l

def matchCompanyAt (_prev : Option Char) (l : List Char) : Option (Nat × List Char) :=
  companyGo company_pre l

def findCompanies (l : List Char) : List (List Char) := runScan matchCompanyAt l

/-! ### Pattern: brands — `\b[A-Z][a-z]+(?:\s+[A-Z][a-z]+)*\s+(?:Brand|by|from)`

No trailing boundary.  After the greedy star the lowercase literals `by`
and `from` can match in the remaining text; `Brand` (word-shaped) can only
match by giving back star words, as a literal prefix of a given-back word
(`Apple Brands` matches as `Apple Brand`). -/

def brand_alts : List (List Char) := ["Brand", "by", "from"].map String.toList

def brandBackRev (baseLen : Nat) : List (List Char × List Char) → Option Nat
  | [] => none
  | (sp, w) :: rest =>
    match brand_alts.find? (fun v => v.isPrefixOf w) with
    | some v => some (baseLen + sumLens rest + sp.length + v.length)
    | none => brandBackRev baseLen rest

def matchBrandAt (prev : Option Char) (l : List Char) : Option (Nat × List Char) :=
  if boundaryBefore prev then
    match capWord l with
    | none => none
    | some (w0, r0) =>
      let (items, r1) := wordSeq r0.length r0
      let base := w0.length + sumLens items
      let sp := r1.takeWhile isSpaceC
      match (if sp.isEmpty then none
             else brand_alts.find? (fun v => v.isPrefixOf (r1.drop sp.length))) with
      | some v =>
        let n := base + sp.length + v.length
        some (n, l.take n)
      | none =>
        match brandBackRev w0.length items.reverse with
        | some n => some (n, l.take n)
        | none => none
  else none

def findBrands (l : List Char) : List (List Char) := runScan matchBrandAt l

/-! ### Pattern: product features —
`\b(wireless|bluetooth|...|heavy duty)\b` (case-insensitive) -/

def prod_feature_vocab : List (List Char) :=
  ["wireless", "bluetooth", "waterproof", "rechargeable", "portable",
   "digital", "smart", "premium", "professional", "heavy duty"].map String.toList

def findProdFeatures (l : List Char) : List (List Char) :=
  runScan (matchVocabCI prod_feature_vocab) l

/-! ### Data model -/

structure Entity where
  name : List Char
  description : List Char
deriving DecidableEq, Repr

structure Rel where
  entity1 : List Char
  entity2 : List Char
  relation_type : List Char
  description : List Char
deriving DecidableEq, Repr

/-- The dict returned by `extract_knowledge_from_text`. -/
structure Knowledge where
  entities : List Entity
  relationships : List Rel
  error : Bool
deriving DecidableEq, Repr

/-! ### Domain-specific extractors -/

/-- `extract_real_estate_entities`: first 5 prices, first 3 addresses,
    first 5 features, in that order. -/
def extract_real_estate_entities (text : List Char) : List Entity :=
  ((findPrices text).take 5).map
    (fun p => { name := p, description := "Real estate price: ".toList ++ p })
  ++ ((findAddresses text).take 3).map
    (fun a => { name := a, description := "Property address: ".toList ++ a })
  ++ ((findFeatures text).take 5).map
    (fun cf => { name := cf.1 ++ [' '] ++ cf.2
                 description := "Property feature: ".toList ++ cf.1 ++ [' '] ++ cf.2 })

/-- `extract_professional_entities`: first 5 job titles, first 5 companies. -/
def extract_professional_entities (text : List Char) : List Entity :=
  ((findJobTitles text).take 5).map
    (fun t => { name := t, description := "Job title: ".toList ++ t })
  ++ ((findCompanies text).take 5).map
    (fun c => { name := c, description := "Company: ".toList ++ c })

/-- `brand.replace(' Brand','').replace(' by','').replace(' from','').strip()` -/
def cleanBrand (b : List Char) : List Char :=
  let s1 := removeAll (" Brand".toList) b.length b
  let s2 := removeAll (" by".toList) s1.length s1
  let s3 := removeAll (" from".toList) s2.length s2
  pstrip s3

/-- First-occurrence deduplication, modelling iteration over the Python
    `set(features[:10])`.  CPython's set iteration order is unspecified;
    any order satisfies the claims proved below, and first-occurrence
    order is used as the concrete representative. -/
def dedupFirst : List (List Char) → List (List Char) → List (List Char)
  | [], _ => []
  | x :: rest, seen =>
    if seen.contains x then dedupFirst rest seen
    else x :: dedupFirst rest (x :: seen)

/-- `extract_product_entities`: first 5 brands (cleaned), then the set of
    the first 10 feature matches, title-cased. -/
def extract_product_entities (text : List Char) : List Entity :=
  ((findBrands text).take 5).map
    (fun b =>
      let bc := cleanBrand b
      { name := bc, description := "Product brand: ".toList ++ bc })
  ++ (dedupFirst ((findProdFeatures text).take 10) []).map
    (fun f => { name := titleCase f, description := "Product feature: ".toList ++ f })

/-! ### General extractor — `extract_general_entities`

`all_terms = proper_nouns + tech_terms + org_terms`; keep a term if it is
stripped-nonempty of length 3–49, unseen (case-sensitive), not all-upper
and not all-digits; stop after the 15th accepted term.  The counter `n`
is the number of terms accepted so far. -/

def generalQualifies (t : List Char) (seen : List (List Char)) : Bool :=
  2 < t.length && t.length < 50 && !seen.contains t && !isupperStr t && !allDigitsStr t

def generalLoop : List (List Char) → List (List Char) → Nat → List Entity
  | [], _, _ => []
  | t :: rest, seen, n =>
    let t' := pstrip t
    if generalQualifies t' seen then
      let e : Entity := { name := t'
                          description := "Entity extracted from content: ".toList ++ t' }
      if 15 ≤ n + 1 then [e]
      else e :: generalLoop rest (t' :: seen) (n + 1)
    else generalLoop rest seen n

def extract_general_entities (text : List Char) : List Entity :=
  generalLoop (findProperNouns text ++ findTechTerms text ++ findOrgTerms text) [] 0

/-! ### URL classification (the `if/elif` chain on `source_url.lower()`) -/

inductive SiteCategory where
  | RealEstate | Professional | Product | Generic
deriving DecidableEq, Repr

def classify (url : List Char) : SiteCategory :=
  let u := lowerL url
  if containsSeq ("zillow".toList) u then .RealEstate
  else if containsSeq ("linkedin".toList) u then .Professional
  else if containsSeq ("amazon".toList) u then .Product
  else .Generic

def category_entities : SiteCategory → List Char → List Entity
  | .RealEstate, t => extract_real_estate_entities t
  | .Professional, t => extract_professional_entities t
  | .Product, t => extract_product_entities t
  | .Generic, _ => []

/-- The concatenated candidate list fed to the dedup loop of
    `extract_knowledge_from_text`: domain-specific entities first (when
    the URL matches a domain), then the general entities. -/
def candidate_entities (text url : List Char) : List Entity :=
  category_entities (classify url) text ++ extract_general_entities text

/-! ### Entity deduplication with the 25 cap

`for entity in entities: if name not in seen and len(name) > 2: append;
add to seen; if len(unique) >= 25: break`.  The counter `n` is the number
of entities accepted so far. -/

def dedupEntities : List Entity → List (List Char) → Nat → List Entity
  | [], _, _ => []
  | e :: rest, seen, n =>
    if !seen.contains e.name && 2 < e.name.length then
      if 25 ≤ n + 1 then [e]
      else e :: dedupEntities rest (e.name :: seen) (n + 1)
    else dedupEntities rest seen n

/-- The same loop without the 25 cap; its length counts the distinct
    qualifying names among the candidates. -/
def dedupNoCap : List Entity → List (List Char) → List Entity
  | [], _ => []
  | e :: rest, seen =>
    if !seen.contains e.name && 2 < e.name.length then
      e :: dedupNoCap rest (e.name :: seen)
    else dedupNoCap rest seen

/-! ### Relationship builder — `create_enhanced_relationships` -/

def located_words : List (List Char) :=
  ["located", "in", "at", "near", "address"].map String.toList
def owns_words : List (List Char) :=
  ["owns", "belongs to", "property of", "owned by"].map String.toList
def employed_words : List (List Char) :=
  ["works at", "employed by", "ceo of", "manager of"].map String.toList
def manufactured_words : List (List Char) :=
  ["manufactured by", "made by", "brand"].map String.toList
def priced_words : List (List Char) :=
  ["costs", "priced at", "$", "price"].map String.toList
def uses_words : List (List Char) :=
  ["uses", "implements", "utilizes"].map String.toList
def creates_words : List (List Char) :=
  ["creates", "generates", "produces"].map String.toList
def partof_words : List (List Char) :=
  ["part of", "component of", "belongs to"].map String.toList
def similar_words : List (List Char) :=
  ["similar to", "like", "comparable"].map String.toList
def integrates_words : List (List Char) :=
  ["works with", "integrates", "connects"].map String.toList

def anyWordIn (ws : List (List Char)) (s : List Char) : Bool :=
  ws.any (fun w => containsSeq w s)

/-- `determine_enhanced_relationship_type`: first matching keyword bucket,
    checked as substrings of the lowercased sentence, in source order. -/
def determine_enhanced_relationship_type (sentence : List Char) : List Char :=
  let s := lowerL sentence
  if anyWordIn located_words s then "LOCATED_AT".toList
  else if anyWordIn owns_words s then "OWNS".toList
  else if anyWordIn employed_words s then "EMPLOYED_BY".toList
  else if anyWordIn manufactured_words s then "MANUFACTURED_BY".toList
  else if anyWordIn priced_words s then "PRICED_AT".toList
  else if anyWordIn uses_words s then "USES".toList
  else if anyWordIn creates_words s then "CREATES".toList
  else if anyWordIn partof_words s then "PART_OF".toList
  else if anyWordIn similar_words s then "SIMILAR_TO".toList
  else if anyWordIn integrates_words s then "INTEGRATES_WITH".toList
  else "RELATED_TO".toList

def mkRel (e1 e2 : Entity) (sentence : List Char) : Rel :=
  { entity1 := e1.name
    entity2 := e2.name
    relation_type := determine_enhanced_relationship_type sentence
    description := "Relationship found: ".toList ++ sentence.take 150 ++ "...".toList }

/-- Inner loop `for entity2 in sentence_entities[i+1:]`: the
    `len(relationships) >= 20` break is checked before each append. -/
def relInner (e1 : Entity) (sentence : List Char) :
    List Entity → List Rel → List Rel
  | [], acc => acc
  | e2 :: rest, acc =>
    if 20 ≤ acc.length then acc
    else relInner e1 sentence rest (acc ++ [mkRel e1 e2 sentence])

/-- Outer loop `for i, entity1 in enumerate(sentence_entities)`. -/
def relOuter (sentence : List Char) : List Entity → List Rel → List Rel
  | [], acc => acc
  | e1 :: rest, acc => relOuter sentence rest (relInner e1 sentence rest acc)

/-- Loop over `sentences[:100]`: strip, skip sentences shorter than 20
    chars, keep the entities whose lowercased name occurs in the
    lowercased sentence. -/
def relSentences (entities : List Entity) : List (List Char) → List Rel → List Rel
  | [], acc => acc
  | s :: rest, acc =>
    let st := pstrip s
    if st.length < 20 then relSentences entities rest acc
    else
      let sentEnts := entities.filter (fun e => containsSeq (lowerL e.name) (lowerL st))
      relSentences entities rest (relOuter st sentEnts acc)

def create_enhanced_relationships (entities : List Entity) (text : List Char) : List Rel :=
  relSentences entities ((splitPunct text).take 100) []

/-! ### `extract_knowledge_from_text` -/

def extract_knowledge_from_text (text source_url : List Char) : Knowledge :=
  let unique := dedupEntities (candidate_entities text source_url) [] 0
  { entities := unique
    relationships := create_enhanced_relationships unique text
    error := false }

/-! ### Proxy pool — `get_next_proxy`

State: the loaded proxy list and the rotation cursor.  The loader keeps
the index below the pool length whenever the pool is nonempty (it starts
at 0 and is always reduced modulo the length), so the Python list index
never faults; `getD` mirrors that in-range access. -/

structure PoolState where
  free_proxies : List (List Char)
  current_proxy_index : Nat
deriving DecidableEq, Repr

structure ProxyDict where
  http : List Char
  https : List Char
deriving DecidableEq, Repr

def get_next_proxy (s : PoolState) : Option ProxyDict × PoolState :=
  if s.free_proxies.isEmpty then (none, s)
  else
    let proxy := s.free_proxies.getD s.current_proxy_index []
    let s' : PoolState :=
      { s with current_proxy_index := (s.current_proxy_index + 1) % s.free_proxies.length }
    (some { http := "http://".toList ++ proxy, https := "http://".toList ++ proxy }, s')

/-! ### `scrape_url` — the bounded retry loop

The network is modelled as an environment giving, for each attempt index,
the outcome of that attempt's I/O: the result of the `test_proxy` probe
and either an exception raised inside the `try` body or the dict returned
by the dispatched strategy (the strategies only ever return
`extract_knowledge_from_text` results, whose `error` is `False`, but the
model keeps the guard the code performs on `knowledge.get('error')`). -/

structure AttemptEff where
  proxyTestOk : Bool
  strategy : Except (List Char) Knowledge
deriving Repr

/-- The record `scrape_url` hands back to its caller.  Python returns a
    dict; the failure dicts carry no `entities`/`relationships` keys, which
    every consumer reads through `.get(_, [])`, so absent keys are
    modelled as empty lists. -/
structure KRecord where
  error : Bool
  message : List Char
  entities : List Entity
  relationships : List Rel
  source_url : List Char
  proxy_used : Bool
deriving DecidableEq, Repr

def mkTerminalRecord (url : List Char) : KRecord :=
  { error := true, message := "Max retries exceeded".toList
    entities := [], relationships := [], source_url := url, proxy_used := false }

def mkRaisedRecord (url : List Char) (max_retries : Nat) (msg : List Char) : KRecord :=
  { error := true
    message := "Failed after ".toList ++ Nat.toDigits 10 max_retries
               ++ " attempts: ".toList ++ msg
    entities := [], relationships := [], source_url := url, proxy_used := false }

def mkSuccessRecord (k : Knowledge) (url : List Char) (proxyUsed : Bool) : KRecord :=
  { error := k.error, message := []
    entities := k.entities, relationships := k.relationships
    source_url := url, proxy_used := proxyUsed }

/-- `for attempt in range(max_retries)`: `fuel` counts the remaining
    iterations and `attempt` the current index (the wrapper keeps
    `fuel + attempt = max_retries`).  Returns the record together with the
    number of attempt iterations performed.  Raised exceptions are caught;
    on the last attempt the handler returns the failure record, otherwise
    the loop continues; a failed proxy probe on one of the first two
    attempts consumes the iteration via `continue`. -/
def scrapeGo (url : List Char) (max_retries : Nat) (env : Nat → AttemptEff) :
    Nat → Nat → PoolState → KRecord × Nat
  | 0, attempt, _ => (mkTerminalRecord url, attempt)
  | fuel + 1, attempt, pool =>
    let (proxyDict, pool') := get_next_proxy pool
    let eff := env attempt
    if proxyDict.isSome && attempt < 2 && !eff.proxyTestOk then
      scrapeGo url max_retries env fuel (attempt + 1) pool'
    else
      match eff.strategy with
      | Except.error msg =>
        if attempt + 1 = max_retries then (mkRaisedRecord url max_retries msg, attempt + 1)
        else scrapeGo url max_retries env fuel (attempt + 1) pool'
      | Except.ok k =>
        if k.error = false then (mkSuccessRecord k url proxyDict.isSome, attempt + 1)
        else scrapeGo url max_retries env fuel (attempt + 1) pool'

def scrape_url (url : List Char) (max_retries : Nat) (env : Nat → AttemptEff)
    (pool : PoolState) : KRecord × Nat :=
  scrapeGo url max_retries env max_retries 0 pool

/-- An attempt whose strategy result cannot make the loop return
    successfully: it raises, or returns a record flagged as an error. -/
def attemptFails (eff : AttemptEff) : Bool :=
  match eff.strategy with
  | Except.error _ => true
  | Except.ok k => k.error

/-! ## Helper lemmas about the dedup loop of `extract_knowledge_from_text` -/

theorem dedupEntities_sublist (l : List Entity) (seen : List (List Char)) (n : Nat) :
    (dedupEntities l seen n).Sublist l := by
  induction l generalizing seen n with
  | nil => simp [dedupEntities]
  | cons e rest ih =>
    simp only [dedupEntities]
    split
    · split
      · exact (List.nil_sublist rest).cons₂ e
      · exact (ih _ _).cons₂ e
    · exact (ih _ _).cons e

theorem dedupEntities_name_len (l : List Entity) (seen : List (List Char)) (n : Nat)
    (e : Entity) (h : e ∈ dedupEntities l seen n) : 2 < e.name.length := by
  induction l generalizing seen n with
  | nil => simp [dedupEntities] at h
  | cons a rest ih =>
    simp only [dedupEntities] at h
    split at h
    · rename_i hq
      simp only [Bool.and_eq_true, decide_eq_true_eq] at hq
      split at h
      · simp only [List.mem_singleton] at h
        exact h ▸ hq.2
      · rcases List.mem_cons.mp h with h | h
        · exact h ▸ hq.2
        · exact ih _ _ h
    · exact ih _ _ h

theorem dedupNoCap_length_le (l : List Entity) (seen : List (List Char)) :
    (dedupNoCap l seen).length ≤ l.length := by
  induction l generalizing seen with
  | nil => simp [dedupNoCap]
  | cons e rest ih =>
    simp only [dedupNoCap]
    split
    · simpa using Nat.succ_le_succ (ih _)
    · exact Nat.le_succ_of_le (ih _)

/-- The capped loop returns a prefix-behaviour of the uncapped loop:
    its length is the uncapped count truncated at `25 - n`. -/
theorem dedupEntities_length (l : List Entity) (seen : List (List Char)) (n : Nat)
    (hn : n < 25) :
    (dedupEntities l seen n).length = min (25 - n) (dedupNoCap l seen).length := by
  induction l generalizing seen n with
  | nil => simp [dedupEntities, dedupNoCap]
  | cons e rest ih =>
    by_cases hq : (!seen.contains e.name && decide (2 < e.name.length)) = true
    · by_cases hcap : 25 ≤ n + 1
      · have : n = 24 := by omega
        subst this
        simp only [dedupEntities, dedupNoCap, hq, if_true, if_pos hcap,
          List.length_singleton, List.length_cons, List.length_nil]
        omega
      · have h' := ih (e.name :: seen) (n + 1) (by omega)
        simp only [dedupEntities, dedupNoCap, hq, if_true, if_neg hcap,
          List.length_cons, h']
        omega
    · simp only [dedupEntities, dedupNoCap, hq, if_false]
      exact ih _ _ hn

theorem dedupEntities_nodup_and_fresh (l : List Entity) (seen : List (List Char)) (n : Nat) :
    (∀ e ∈ dedupEntities l seen n, e.name ∉ seen) ∧
    ((dedupEntities l seen n).map Entity.name).Nodup := by
  induction l generalizing seen n with
  | nil => simp [dedupEntities]
  | cons a rest ih =>
    simp only [dedupEntities]
    split
    · rename_i hq
      simp only [Bool.and_eq_true, Bool.not_eq_true', decide_eq_true_eq] at hq
      have hfresh : a.name ∉ seen := by
        intro hmem
        have h2 : seen.contains a.name = true := List.elem_iff.mpr hmem
        rw [hq.1] at h2
        exact absurd h2 (by decide)
      split
      · constructor
        · intro e he
          simp only [List.mem_singleton] at he
          exact he ▸ hfresh
        · simp
      · obtain ⟨ih1, ih2⟩ := ih (a.name :: seen) (n + 1)
        constructor
        · intro e he
          rcases List.mem_cons.mp he with h | h
          · exact h ▸ hfresh
          · intro hmem
            exact ih1 e h (List.mem_cons_of_mem _ hmem)
        · simp only [List.map_cons, List.nodup_cons]
          refine ⟨?_, ih2⟩
          intro hmem
          rcases List.mem_map.mp hmem with ⟨e, he, hname⟩
          exact ih1 e he (hname ▸ List.mem_cons_self _ _)
    · exact ih _ _

/-- First occurrence wins: every entity the dedup loop keeps is the first
    candidate carrying its name. -/
theorem dedupEntities_find (l : List Entity) (seen : List (List Char)) (n : Nat)
    (e : Entity) (h : e ∈ dedupEntities l seen n) :
    l.find? (fun c => c.name == e.name) = some e := by
  induction l generalizing seen n with
  | nil => simp [dedupEntities] at h
  | cons a rest ih =>
    simp only [dedupEntities] at h
    split at h
    · rename_i hq
      split at h
      · simp only [List.mem_singleton] at h
        subst h
        simp [List.find?_cons]
      · rcases List.mem_cons.mp h with h | h
        · subst h
          simp [List.find?_cons]
        · have hfresh := (dedupEntities_nodup_and_fresh rest (a.name :: seen) (n + 1)).1 e h
          have hne : a.name ≠ e.name := by
            intro heq
            exact hfresh (heq ▸ List.mem_cons_self _ _)
          rw [List.find?_cons_of_neg _ (by simpa using hne)]
          exact ih _ _ h
    · rename_i hq
      simp only [Bool.not_eq_true, Bool.and_eq_false_iff, Bool.not_eq_false,
        decide_eq_false_iff_not] at hq
      have hne : a.name ≠ e.name := by
        intro heq
        rcases hq with hc | hlen
        · have hc' : seen.contains a.name = true := by simpa using hc
          have hnotin := (dedupEntities_nodup_and_fresh rest seen n).1 e h
          exact hnotin (heq ▸ List.elem_iff.mp hc')
        · have h3 := dedupEntities_name_len rest seen n e h
          rw [heq] at hlen
          omega
      rw [List.find?_cons_of_neg _ (by simpa using hne)]
      exact ih _ _ h

/-! ## Helper lemmas about `extract_general_entities` -/

theorem generalLoop_length (terms : List (List Char)) (seen : List (List Char)) (n : Nat)
    (hn : n < 15) : (generalLoop terms seen n).length ≤ 15 - n := by
  induction terms generalizing seen n with
  | nil => simp [generalLoop]
  | cons t rest ih =>
    simp only [generalLoop]
    split
    · split
      · rename_i hcap
        simp only [List.length_singleton]
        omega
      · rename_i hcap
        have h' := ih (pstrip t :: seen) (n + 1) (by omega)
        simp only [List.length_cons]
        omega
    · exact ih _ _ hn

theorem generalLoop_name_lt (terms : List (List Char)) (seen : List (List Char)) (n : Nat)
    (e : Entity) (h : e ∈ generalLoop terms seen n) : e.name.length < 50 := by
  induction terms generalizing seen n with
  | nil => simp [generalLoop] at h
  | cons t rest ih =>
    simp only [generalLoop] at h
    split at h
    · rename_i hq
      simp only [generalQualifies, Bool.and_eq_true, decide_eq_true_eq] at hq
      obtain ⟨⟨⟨⟨_, h50⟩, _⟩, _⟩, _⟩ := hq
      split at h
      · simp only [List.mem_singleton] at h
        subst h
        exact h50
      · rcases List.mem_cons.mp h with h | h
        · subst h
          exact h50
        · exact ih _ _ h
    · exact ih _ _ h

theorem extract_general_entities_length (text : List Char) :
    (extract_general_entities text).length ≤ 15 := by
  simpa [extract_general_entities] using generalLoop_length
    (findProperNouns text ++ findTechTerms text ++ findOrgTerms text) [] 0 (by omega)

/-! ## Helper lemmas about the relationship builder -/

theorem relInner_length (e1 : Entity) (s : List Char) (l : List Entity) (acc : List Rel)
    (h : acc.length ≤ 20) : (relInner e1 s l acc).length ≤ 20 := by
  induction l generalizing acc with
  | nil => simpa [relInner] using h
  | cons e2 rest ih =>
    simp only [relInner]
    split
    · simpa using h
    · rename_i hlt
      exact ih _ (by simp at hlt ⊢; omega)

theorem relOuter_length (s : List Char) (l : List Entity) (acc : List Rel)
    (h : acc.length ≤ 20) : (relOuter s l acc).length ≤ 20 := by
  induction l generalizing acc with
  | nil => simpa [relOuter] using h
  | cons e1 rest ih => exact ih _ (relInner_length e1 s rest acc h)

theorem relSentences_length (entities : List Entity) (ss : List (List Char)) (acc : List Rel)
    (h : acc.length ≤ 20) : (relSentences entities ss acc).length ≤ 20 := by
  induction ss generalizing acc with
  | nil => simpa [relSentences] using h
  | cons s rest ih =>
    simp only [relSentences]
    split
    · exact ih _ h
    · exact ih _ (relOuter_length _ _ _ h)

/-! ## Helper lemmas about the retry loop -/

theorem scrapeGo_all_fail (url : List Char) (k : Nat) (env : Nat → AttemptEff)
    (hfail : ∀ i, i < k → attemptFails (env i) = true) :
    ∀ fuel attempt pool, fuel + attempt = k →
      (scrapeGo url k env fuel attempt pool).1.error = true ∧
      (scrapeGo url k env fuel attempt pool).1.message ≠ [] ∧
      (scrapeGo url k env fuel attempt pool).2 = k := by
  intro fuel
  induction fuel with
  | zero =>
    intro attempt pool hsum
    refine ⟨rfl, by simp [scrapeGo, mkTerminalRecord], by simpa using hsum⟩
  | succ f ih =>
    intro attempt pool hsum
    have hattempt : attempt < k := by omega
    have hf := hfail attempt hattempt
    simp only [scrapeGo]
    split
    · exact ih (attempt + 1) _ (by omega)
    · cases hstrat : (env attempt).strategy with
      | error msg =>
        simp only [hstrat]
        by_cases hlast : attempt + 1 = k
        · simp only [if_pos hlast]
          refine ⟨rfl, ?_, hlast⟩
          simp only [mkRaisedRecord]
          intro hnil
          exact absurd (congrArg List.length hnil) (by simp)
        · simp only [if_neg hlast]
          exact ih (attempt + 1) _ (by omega)
      | ok kk =>
        have hkk : kk.error = true := by
          simpa [attemptFails, hstrat] using hf
        simp only [hstrat, hkk]
        exact ih (attempt + 1) _ (by omega)

theorem scrapeGo_error_empty (url : List Char) (k : Nat) (env : Nat → AttemptEff) :
    ∀ fuel attempt pool, (scrapeGo url k env fuel attempt pool).1.error = true →
      (scrapeGo url k env fuel attempt pool).1.entities = [] ∧
      (scrapeGo url k env fuel attempt pool).1.relationships = [] := by
  intro fuel
  induction fuel with
  | zero => intro attempt pool _; exact ⟨rfl, rfl⟩
  | succ f ih =>
    intro attempt pool herr
    revert herr
    simp only [scrapeGo]
    split
    · exact ih (attempt + 1) _
    · cases hstrat : (env attempt).strategy with
      | error msg =>
        by_cases hlast : attempt + 1 = k
        · simp only [if_pos hlast]
          intro _
          exact ⟨rfl, rfl⟩
        · simp only [if_neg hlast]
          exact ih (attempt + 1) _
      | ok kk =>
        by_cases hkk : kk.error = false
        · simp only [if_pos hkk, mkSuccessRecord]
          intro herr
          rw [hkk] at herr
          exact absurd herr (by decide)
        · simp only [if_neg hkk]
          exact ih (attempt + 1) _

/-! ## Concrete inputs used by the counterexamples and witnesses -/

def urlZillow : List Char := "https://www.zillow.com/home".toList

def urlGeneric : List Char := "https://example.org/blog".toList

/-- Text of the spec's Generic-category scenario. -/
def txtScenario : List Char :=
  "Apple Inc. released the iPhone. The iPhone uses Bluetooth.".toList

/-- RealEstate text whose pattern families yield 26 candidate entities of
    which only 22 names are distinct (the price `$10` occurs five times). -/
def txtDupPrices : List Char :=
  ("$10 $10 $10 $10 $10 1 Alpha St 2 Beta St 3 Gamma St 4 bed 5 bath 6 garage "
    ++ "7 car 8 acre Aaa. Bbb. Ccc. Ddd. Eee. Fff. Ggg. Hhh. Iii. Hello. Hello.").toList

/-- RealEstate text with 26 distinct qualifying candidates; the term
    `Hello` occurs twice but its first candidate occurrence is the 26th
    distinct name, past the 25-entity cap. -/
def txtManyEnts : List Char :=
  ("$10 $20 $30 $40 $50 1 Alpha St 2 Beta St 3 Gamma St 4 bed 5 bath 6 garage "
    ++ "7 car 8 acre Aaa. Bbb. Ccc. Ddd. Eee. Fff. Ggg. Hhh. Iii. Hello. Hello.").toList

/-- RealEstate text with one price and two general proper nouns. -/
def txtMixed : List Char := "Costs $1,000 for Apple".toList

/-- RealEstate text whose single price token is 56 characters long. -/
def txtLongPrice : List Char :=
  "$1234567890123456789012345678901234567890123456789012345".toList

set_option maxRecDepth 100000

/-! ## Claim C1 -/

/-- Claim C1, as stated, is false: with more than 25 candidate entities the
    output can hold fewer than 25 entities, because candidates may repeat a
    name.  On `txtDupPrices` (RealEstate) the families produce 26
    candidates but only 22 entities survive deduplication. -/
theorem C1_counterexample :
    25 < (candidate_entities txtDupPrices urlZillow).length ∧
    (extract_knowledge_from_text txtDupPrices urlZillow).entities.length = 22 := by
  constructor
  · decide
  · decide

/-- Claim C1 (amended): for every text and category, the entity list's
    length is the number of distinct qualifying candidate names (names of
    length at least 3, counted by the uncapped dedup loop), truncated at
    25; in particular more than 25 **distinct** qualifying candidate names
    yield exactly 25 entities. -/
theorem C1_entity_cap (text url : List Char) :
    (extract_knowledge_from_text text url).entities.length
      = min 25 (dedupNoCap (candidate_entities text url) []).length := by
  simpa using dedupEntities_length (candidate_entities text url) [] 0 (by omega)

/-! ## Claim C2 -/

/-- Claim C2, as stated, is false: on the scenario text the extraction
    output contains no entity named `iPhone` — the proper-noun pattern's
    leading `\b` rejects `iPhone` because its capital `P` is preceded by
    the word character `i`. -/
theorem C2_counterexample :
    ((extract_knowledge_from_text txtScenario urlGeneric).entities.map
        Entity.name).contains ("iPhone".toList) = false := by
  decide

/-- Claim C2 (amended): on the scenario text with a Generic URL the
    entities are exactly `Apple Inc`, `The` and `Bluetooth` (no `iPhone`),
    and the single relationship pairs `The` with `Bluetooth` with
    relation type `USES`. -/
theorem C2_scenario :
    (extract_knowledge_from_text txtScenario urlGeneric).entities.map Entity.name
      = ["Apple Inc".toList, "The".toList, "Bluetooth".toList] ∧
    (extract_knowledge_from_text txtScenario urlGeneric).relationships.map
        (fun r => (r.entity1, r.entity2, r.relation_type))
      = [("The".toList, "Bluetooth".toList, "USES".toList)] := by
  constructor
  · decide
  · decide

/-! ## Claim C3 -/

/-- Claim C3, as stated, is false: the code extends the category-specific
    entities *before* the general ones.  On `txtMixed` (RealEstate) the
    output starts with the price `$1,000` — a real-estate match — followed
    by the general matches `Costs` and `Apple`. -/
theorem C3_counterexample :
    (extract_knowledge_from_text txtMixed urlZillow).entities.map Entity.name
      = ["$1,000".toList, "Costs".toList, "Apple".toList] ∧
    (extract_real_estate_entities txtMixed).map Entity.name = ["$1,000".toList] ∧
    (extract_general_entities txtMixed).map Entity.name
      = ["Costs".toList, "Apple".toList] := by
  refine ⟨by decide, by decide, by decide⟩

/-- Claim C3 (amended): the output entity list is a sublist (order
    preserved) of `candidate_entities`, which lists the category-specific
    matches first and the general-pattern matches appended after them. -/
theorem C3_insertion_order (text url : List Char) :
    ((extract_knowledge_from_text text url).entities).Sublist
      (category_entities (classify url) text ++ extract_general_entities text) :=
  dedupEntities_sublist (candidate_entities text url) [] 0

/-! ## Claim C4 -/

/-- Claim C4, as stated, is false: category-specific entity names have no
    upper length bound.  On `txtLongPrice` (RealEstate) the single output
    entity's name is 56 characters long. -/
theorem C4_counterexample :
    (extract_knowledge_from_text txtLongPrice urlZillow).entities.map
        (fun e => e.name.length) = [56] := by
  decide

/-- Claim C4 (amended): every output entity's name has length at least 3;
    the 49-character upper bound holds only for the Generic category,
    where all entities come from the general pattern family. -/
theorem C4_name_bounds (text url : List Char) (e : Entity)
    (h : e ∈ (extract_knowledge_from_text text url).entities) :
    2 < e.name.length ∧
    (classify url = SiteCategory.Generic → e.name.length < 50) := by
  constructor
  · exact dedupEntities_name_len _ [] 0 e h
  · intro hG
    have hmem : e ∈ candidate_entities text url :=
      (dedupEntities_sublist (candidate_entities text url) [] 0).subset h
    simp only [candidate_entities, hG, category_entities, List.nil_append] at hmem
    exact generalLoop_name_lt _ [] 0 e hmem

/-- Witness for C4 at a concrete input: the entity `Apple Inc` extracted
    from the scenario text with a Generic URL. -/
theorem C4_name_bounds_witness :
    2 < ("Apple Inc".toList).length ∧
    (classify urlGeneric = SiteCategory.Generic → ("Apple Inc".toList).length < 50) :=
  C4_name_bounds txtScenario urlGeneric
    { name := "Apple Inc".toList
      description := "Entity extracted from content: Apple Inc".toList }
    (by decide)

/-! ## Claim C5 -/

/-- Claim C5 (confirmed): for every entity list and text the relationship
    builder returns at most 20 relationships — the cap is checked before
    every append, so once 20 is reached nothing more is added. -/
theorem C5_relationship_cap (entities : List Entity) (text : List Char) :
    (create_enhanced_relationships entities text).length ≤ 20 :=
  relSentences_length entities ((splitPunct text).take 100) [] (by simp)

/-! ## Claim C6 -/

/-- Claim C6, as stated, is false: a qualifying term occurring twice can be
    missing from the output entirely when the 25-entity cap is reached
    before its first candidate occurrence.  On `txtManyEnts` (RealEstate)
    the proper-noun family matches `Hello` twice, `Hello` appears among the
    candidates, yet no output entity is named `Hello`. -/
theorem C6_counterexample :
    (findProperNouns txtManyEnts).count ("Hello".toList) = 2 ∧
    ((candidate_entities txtManyEnts urlZillow).map Entity.name).contains
      ("Hello".toList) = true ∧
    ((extract_knowledge_from_text txtManyEnts urlZillow).entities.map
        Entity.name).count ("Hello".toList) = 0 := by
  refine ⟨by decide, by decide, by decide⟩

/-- Claim C6 (amended): output names are pairwise distinct (so a name
    occurs at most once however often the term repeats), and every kept
    entity is the *first* candidate with its name, so the first
    occurrence's description is the one retained; a qualifying term may be
    absent altogether when the 25-entity cap fires first. -/
theorem C6_dedup_unique_first (text url : List Char) :
    ((extract_knowledge_from_text text url).entities.map Entity.name).Nodup ∧
    ∀ e ∈ (extract_knowledge_from_text text url).entities,
      (candidate_entities text url).find? (fun c => c.name == e.name) = some e := by
  refine ⟨(dedupEntities_nodup_and_fresh (candidate_entities text url) [] 0).2, ?_⟩
  intro e he
  exact dedupEntities_find (candidate_entities text url) [] 0 e he

/-- Witness for C6 at a concrete input: the `$1,000` entity of `txtMixed`
    is found as the first candidate with its name. -/
theorem C6_dedup_unique_first_witness :
    ((extract_knowledge_from_text txtMixed urlZillow).entities.map Entity.name).Nodup ∧
    (candidate_entities txtMixed urlZillow).find?
        (fun c => c.name == ("$1,000".toList)) =
      some { name := "$1,000".toList
             description := "Real estate price: $1,000".toList } :=
  ⟨(C6_dedup_unique_first txtMixed urlZillow).1,
    (C6_dedup_unique_first txtMixed urlZillow).2
      { name := "$1,000".toList, description := "Real estate price: $1,000".toList }
      (by decide)⟩

/-! ## Claim C7 -/

/-- Claim C7 (confirmed): with every attempt failing (raising inside the
    loop body, or yielding an error-flagged record), `scrape_url` with
    `max_retries = k ≥ 1` performs exactly `k` attempt iterations and
    returns an error record with a non-empty message; exceptions are
    caught by the loop's handler, never propagated. -/
theorem C7_retry_bound (url : List Char) (k : Nat) (env : Nat → AttemptEff)
    (pool : PoolState) (_hk : 1 ≤ k)
    (hfail : ∀ i, i < k → attemptFails (env i) = true) :
    (scrape_url url k env pool).1.error = true ∧
    (scrape_url url k env pool).1.message ≠ [] ∧
    (scrape_url url k env pool).2 = k :=
  scrapeGo_all_fail url k env hfail k 0 pool (by omega)

def envAllRaise : Nat → AttemptEff :=
  fun _ => { proxyTestOk := true, strategy := Except.error ("connection refused".toList) }

def poolEmpty : PoolState := { free_proxies := [], current_proxy_index := 0 }

/-- Witness for C7 at a concrete input: three attempts, each raising. -/
theorem C7_retry_bound_witness :
    (scrape_url urlGeneric 3 envAllRaise poolEmpty).1.error = true ∧
    (scrape_url urlGeneric 3 envAllRaise poolEmpty).1.message ≠ [] ∧
    (scrape_url urlGeneric 3 envAllRaise poolEmpty).2 = 3 :=
  C7_retry_bound urlGeneric 3 envAllRaise poolEmpty (by omega) (fun _ _ => rfl)

/-! ## Claim C8 -/

/-- Claim C8 (confirmed): every record `scrape_url` returns with
    `error = true` carries no entities and no relationships (the Python
    failure dicts carry no such keys; consumers read them as empty lists). -/
theorem C8_error_records_empty (url : List Char) (k : Nat) (env : Nat → AttemptEff)
    (pool : PoolState) (h : (scrape_url url k env pool).1.error = true) :
    (scrape_url url k env pool).1.entities = [] ∧
    (scrape_url url k env pool).1.relationships = [] :=
  scrapeGo_error_empty url k env k 0 pool h

/-- Witness for C8 at a concrete input. -/
theorem C8_error_records_empty_witness :
    (scrape_url urlGeneric 1 envAllRaise poolEmpty).1.entities = [] ∧
    (scrape_url urlGeneric 1 envAllRaise poolEmpty).1.relationships = [] :=
  C8_error_records_empty urlGeneric 1 envAllRaise poolEmpty (by decide)

/-! ## Claim C9 -/

/-- Claim C9 (confirmed): with an empty proxy pool `get_next_proxy`
    returns `none` and leaves the state unchanged, so every subsequent
    call returns `none` as well and fetches proceed without a proxy. -/
theorem C9_empty_pool (s : PoolState) (h : s.free_proxies = []) :
    (get_next_proxy s).1 = none ∧ (get_next_proxy s).2 = s := by
  simp [get_next_proxy, h]

/-- Witness for C9 at a concrete state. -/
theorem C9_empty_pool_witness :
    (get_next_proxy poolEmpty).1 = none ∧ (get_next_proxy poolEmpty).2 = poolEmpty :=
  C9_empty_pool poolEmpty rfl

/-! ## Claim C10 -/

/-- Claim C10 (confirmed): the general pattern family emits at most 15
    entities, so a Generic-category extraction returns at most 15
    entities. -/
theorem C10_generic_cap (text url : List Char)
    (h : classify url = SiteCategory.Generic) :
    (extract_general_entities text).length ≤ 15 ∧
    (extract_knowledge_from_text text url).entities.length ≤ 15 := by
  refine ⟨extract_general_entities_length text, ?_⟩
  have hlen := (dedupEntities_sublist (candidate_entities text url) [] 0).length_le
  have hcand : candidate_entities text url = extract_general_entities text := by
    simp [candidate_entities, h, category_entities]
  calc (extract_knowledge_from_text text url).entities.length
      ≤ (candidate_entities text url).length := hlen
    _ = (extract_general_entities text).length := by rw [hcand]
    _ ≤ 15 := extract_general_entities_length text

/-- Witness for C10 at a concrete input. -/
theorem C10_generic_cap_witness :
    (extract_general_entities txtScenario).length ≤ 15 ∧
    (extract_knowledge_from_text txtScenario urlGeneric).entities.length ≤ 15 :=
  C10_generic_cap txtScenario urlGeneric (by decide)

end FreeScraper
